import Mathlib

/-!
# Citation Graph Visualizer — verification of the frontend client and helpers

Shallow embedding of the TypeScript sources of the citation-graph-visualizer
repository (the Next.js frontend: `src/lib/api.ts`, `src/lib/graph-styles.ts`,
`src/components/PaperUpload.tsx`, and the graph-canvas helper functions), plus
definitions modelled from the specification for the backend engine operations
whose implementation is not part of this repository checkout (network
assembly, path finding, filtering, batch edge comparison).

JavaScript strings that require character-level reasoning are embedded as
`List Char`; identifiers and other strings that are only compared for
equality are embedded as Lean `String`. JavaScript numbers appearing in the
embedded fragments are integers or simple rationals, embedded as `Int` / `Rat`.
-/

namespace CitationGraph

/-- A JavaScript string viewed as a list of characters. -/
abbrev JStr := List Char

/-! ## Data model (`src/lib/api.ts`, interfaces `PaperNode`, `CitationEdge`,
`ResearchGraph`, `BuildGraphResponse`) -/

/-- `PaperNode.visual` from `src/lib/api.ts` (color, size, shape, opacity). -/
structure NodeVisual where
  color : String
  size : Rat
  shape : String
  opacity : Rat
  deriving Repr, DecidableEq

/-- `CitationEdge.visual` from `src/lib/api.ts` (color, thickness, style, opacity). -/
structure EdgeVisual where
  color : String
  thickness : Rat
  style : String
  opacity : Rat
  deriving Repr, DecidableEq

/-- `PaperNode` from `src/lib/api.ts`. The open-schema `attributes` record is
embedded as an association list of string keys to string values (the only
attribute the embedded code reads, `paper_source`, is a string). Optional
TypeScript fields become `Option`; `title` is character-level because the
display conversion truncates it. -/
structure PaperNode where
  id : String
  title : JStr
  authors : List String
  publication_date : Option String
  venue : Option String
  abstract : String
  citation_count : Option Int
  attributes : List (String × String)
  visual : NodeVisual
  deriving Repr, DecidableEq

/-- `CitationEdge` from `src/lib/api.ts`. -/
structure CitationEdge where
  id : String
  from_paper : String
  to_paper : String
  contribution_type : String
  strength : Rat
  context : String
  delta_description : Option String
  visual : EdgeVisual
  deriving Repr, DecidableEq

/-- `ResearchGraph` from `src/lib/api.ts`. -/
structure ResearchGraph where
  id : String
  name : String
  nodes : List PaperNode
  edges : List CitationEdge
  metadata : List (String × String)
  extractors_applied : List String
  deriving Repr, DecidableEq

/-- The ids of the nodes of a graph, in node order. -/
def nodeIds (g : ResearchGraph) : List String := g.nodes.map (fun n => n.id)

/-! ## `truncateTitle` (identical helper in the two graph-canvas components,
`src/unnamed/part_007` lines 615–618 and `src/unnamed/part_008` lines 351–354)

```ts
function truncateTitle(title: string, maxLength: number): string {
  if (title.length <= maxLength) return title;
  return title.substring(0, maxLength - 3) + '...';
}
```

`substring(0, maxLength - 3)` clamps a negative end index to 0, exactly as
truncated `Nat` subtraction followed by `List.take` does. -/

def truncateTitle (title : JStr) (maxLength : Nat) : JStr :=
  if title.length ≤ maxLength then title
  else title.take (maxLength - 3) ++ ['.', '.', '.']

/-! ## `GraphAPI.buildGraph` query parameters (`src/lib/api.ts` lines 138–144)

```ts
const url = new URL(`${API_BASE_URL}/api/graph/build`);
if (options?.includeIntermediate) {
  url.searchParams.set('include_intermediate', 'true');
}
if (options?.maxDepth) {
  url.searchParams.set('max_depth', options.maxDepth.toString());
}
```

`options` and both of its fields are optional; a caller that omits `options`
behaves exactly like one passing `{}`, so the embedding collapses both into a
record of two `Option` fields. JavaScript truthiness on an optional boolean
holds exactly for `true`; on an optional integer number it holds exactly for
nonzero values. -/

/-- The `options` parameter of `GraphAPI.buildGraph`
(`{ includeIntermediate?: boolean; maxDepth?: number }`). -/
structure BuildGraphOptions where
  includeIntermediate : Option Bool
  maxDepth : Option Int
  deriving Repr, DecidableEq

/-- The query parameters `GraphAPI.buildGraph` puts on the request URL,
as ordered key/value pairs. -/
def buildGraphQueryParams (options : BuildGraphOptions) : List (String × String) :=
  (match options.includeIntermediate with
   | some true => [("include_intermediate", "true")]
   | _ => []) ++
  (match options.maxDepth with
   | some v => if v ≠ 0 then [("max_depth", toString v)] else []
   | none => [])

/-! ## `convertGraphToCytoscape` (`src/unnamed/part_007` lines 540–613)

The graph-display conversion of the main graph canvas: it drops every node
tagged `paper_source = 'input'`, re-tags every retained node as `'reviewed'`
(directly cited by / citing an input paper) or `'connecting'`, and drops every
edge touching an input paper. JavaScript builds two `Set`s that are only ever
queried for membership, so they are embedded as lists and queried with
`List.contains`. -/

/-- A JavaScript value stored in a node element's data object: the statically
written entries are strings, string arrays and numbers, and a colliding
`node.attributes` entry (a string in this embedding) can replace any of
them. -/
inductive JsVal where
  | str (s : String)
  | strList (l : List String)
  | int (n : Int)
  | rat (q : Rat)
  deriving Repr, DecidableEq

/-- The `data` record of a Cytoscape node element pushed by
`convertGraphToCytoscape`. The object literal writes `id`, `label`, `title`,
`authors`, `abstract`, `citation_count`, `publication_date`, `venue` and
`size`, then spreads `node.attributes`, then writes `paper_source`; in
JavaScript a later key wins, so an attributes entry can override every field
written before the spread, while `paper_source` is always the final literal.
Each field of this record holds the post-override value (for `id`, `label`,
`title`, `abstract`, `venue` and `publication_date` an overriding string
value has the same shape as the base value; `authors`, `citation_count` and
`size` use `JsVal` since an override replaces an array or number by a
string); `attributes` keeps the spread entries themselves. -/
structure NodeElementData where
  id : String
  label : JStr
  title : JStr
  authors : JsVal
  abstract : String
  citation_count : JsVal
  publication_date : Option String
  venue : Option String
  size : JsVal
  attributes : List (String × String)
  paper_source : String
  deriving Repr, DecidableEq

/-- The `data` record of a Cytoscape edge element pushed by
`convertGraphToCytoscape`. -/
structure EdgeElementData where
  id : String
  source : String
  target : String
  label : String
  contribution_type : String
  context : String
  delta_description : Option String
  strength : Rat
  deriving Repr, DecidableEq

/-- A Cytoscape element definition (`group: 'nodes'` or `group: 'edges'`). -/
inductive CyElement where
  | node (data : NodeElementData)
  | edge (data : EdgeElementData)
  deriving Repr, DecidableEq

/-- `inputPaperIds` (`src/unnamed/part_007` lines 543–547): ids of the nodes
whose `attributes.paper_source` is `'input'`. -/
def inputPaperIds (g : ResearchGraph) : List String :=
  (g.nodes.filter (fun n => n.attributes.lookup "paper_source" == some "input")).map
    (fun n => n.id)

/-- `directlyReferencedIds` (`src/unnamed/part_007` lines 549–557): ids of
non-input papers sharing an edge with an input paper. The source fills one
`Set` in a single pass over the edges; the embedding concatenates the two
kinds of additions, which yields the same membership. -/
def directlyReferencedIds (g : ResearchGraph) : List String :=
  (g.edges.filterMap (fun e =>
    if (inputPaperIds g).contains e.from_paper && !((inputPaperIds g).contains e.to_paper)
    then some e.to_paper else none)) ++
  (g.edges.filterMap (fun e =>
    if (inputPaperIds g).contains e.to_paper && !((inputPaperIds g).contains e.from_paper)
    then some e.from_paper else none))

/-- `convertGraphToCytoscape` (`src/unnamed/part_007` lines 540–613). Nodes
are pushed first (skipping input papers), then edges (skipping any edge
touching an input paper). The node data literal spreads `node.attributes`
after the statically written keys and before `paper_source`, so each field
written before the spread takes the colliding attributes entry when one
exists (the attributes record has unique keys, embedded as first-match
`lookup` on the association list) and `paper_source` always takes the final
literal. -/
def convertGraphToCytoscape (g : ResearchGraph) : List CyElement :=
  let inputIds := inputPaperIds g
  let refIds := directlyReferencedIds g
  ((g.nodes.filter (fun n => !(inputIds.contains n.id))).map (fun n =>
    let citationCount : Int := n.citation_count.getD 0
    let isReviewed := refIds.contains n.id
    let size : Rat :=
      if isReviewed then max 50 (min 80 (50 + (citationCount : Rat) / 8))
      else max 35 (min 60 (35 + (citationCount : Rat) / 12))
    CyElement.node
      { id := (n.attributes.lookup "id").getD n.id
        label :=
          match n.attributes.lookup "label" with
          | some s => s.data
          | none => truncateTitle n.title 50
        title :=
          match n.attributes.lookup "title" with
          | some s => s.data
          | none => n.title
        authors :=
          match n.attributes.lookup "authors" with
          | some s => JsVal.str s
          | none => JsVal.strList n.authors
        abstract := (n.attributes.lookup "abstract").getD n.abstract
        citation_count :=
          match n.attributes.lookup "citation_count" with
          | some s => JsVal.str s
          | none => JsVal.int citationCount
        publication_date :=
          match n.attributes.lookup "publication_date" with
          | some s => some s
          | none => n.publication_date
        venue :=
          match n.attributes.lookup "venue" with
          | some s => some s
          | none => n.venue
        size :=
          match n.attributes.lookup "size" with
          | some s => JsVal.str s
          | none => JsVal.rat size
        attributes := n.attributes
        paper_source := if isReviewed then "reviewed" else "connecting" })) ++
  (g.edges.filterMap (fun e =>
    if inputIds.contains e.from_paper || inputIds.contains e.to_paper then none
    else
      let hasInnovation := e.context ≠ "" ∧ e.context ≠ "reference"
      let label := if hasInnovation then e.context else e.contribution_type
      some (CyElement.edge
        { id := e.id
          source := e.from_paper
          target := e.to_paper
          label := label
          contribution_type := e.contribution_type
          context := e.context
          delta_description := e.delta_description
          strength := e.strength })))

/-! ## Backend engine, modelled from the spec

The backend (FastAPI engine of §4 of the spec) is not part of this repository
checkout; only its HTTP client (`src/lib/api.ts`) is. The operations below are
therefore modelled from the specification's words. -/

/-- Modelled from the spec: §4.1 `PaperRecord`, the record a metadata source
returns for one identifier (the engine source itself is not in `src/`). -/
structure PaperRecord where
  id : String
  title : JStr
  authors : List String
  publication_date : Option String
  venue : Option String
  abstract : String
  citation_count : Option Int
  deriving Repr, DecidableEq

/-- Modelled from the spec: §4.1 Metadata Source Adapter contract
`resolve(identifier) -> PaperRecord | NotFound`, `references(identifier)`,
`citers(identifier)` (the engine source itself is not in `src/`); reference
and citer sequences are abstracted to the identifiers of the returned records,
re-resolved through `resolve` when a record is needed. -/
structure MetadataSource where
  resolve : String → Option PaperRecord
  references : String → List String
  citers : String → List String

/-- Modelled from the spec: §4.2 steps 1 and 5, materializing a resolved
record as a `PaperNode` whose provenance tag `paper_source` is fixed at
creation (visual defaults are out of scope, §1 non-goals). -/
def mkPaperNode (r : PaperRecord) (source : String) : PaperNode :=
  { id := r.id
    title := r.title
    authors := r.authors
    publication_date := r.publication_date
    venue := r.venue
    abstract := r.abstract
    citation_count := r.citation_count
    attributes := [("paper_source", source)]
    visual := ⟨"#cccccc", 30, "ellipse", 1⟩ }

/-- Modelled from the spec: §4.2 step 6, one `CitationEdge` per observed
citation relationship, `contribution_type = "reference"`, default strength 1. -/
def mkReferenceEdge (a b : String) : CitationEdge :=
  { id := a ++ "->" ++ b
    from_paper := a
    to_paper := b
    contribution_type := "reference"
    strength := 1
    context := ""
    delta_description := none
    visual := ⟨"#999999", 1, "solid", 1⟩ }

/-- Modelled from the spec: §4.2 step 6 — the observed citation relationships
among the materialized ids (`a` references `b` gives `a → b`; `c` cites `a`
gives `c → a`), with self-loops disallowed (§3 `CitationEdge` invariant). -/
def observedEdges (src : MetadataSource) (allIds : List String) : List CitationEdge :=
  allIds.flatMap (fun a =>
    (((src.references a).filter (fun b => allIds.contains b && b != a)).map
      (fun b => mkReferenceEdge a b)) ++
    (((src.citers a).filter (fun c => allIds.contains c && c != a)).map
      (fun c => mkReferenceEdge c a)))

/-- Modelled from the spec: §3 `CitationEdge` invariant — multiple edges
between the same ordered pair are disallowed, the most recent write wins. -/
def dedupEdgesByPair (es : List CitationEdge) : List CitationEdge :=
  es.foldl (fun acc e =>
    (acc.filter (fun x =>
      !(x.from_paper == e.from_paper && x.to_paper == e.to_paper))) ++ [e]) []

/-- Lexicographic comparison of two character sequences by code point, used
for the spec's deterministic "ascending normalized identifier" tie-break. -/
def charListLe : List Char → List Char → Bool
  | [], _ => true
  | _ :: _, [] => false
  | a :: as, b :: bs =>
    if a.toNat < b.toNat then true
    else if b.toNat < a.toNat then false
    else charListLe as bs

/-- Ascending identifier order on normalized identifiers. -/
def idLe (a b : String) : Bool := charListLe a.data b.data

/-- Insert into a list sorted by `le` (stable insertion). -/
def rankInsert (le : String → String → Bool) (x : String) : List String → List String
  | [] => [x]
  | y :: ys => if le x y then x :: y :: ys else y :: rankInsert le x ys

/-- Deterministic insertion sort by `le`, used to rank candidate connector
papers (spec §4.2 step 3: descending score, then ascending identifier). -/
def rankSort (le : String → String → Bool) : List String → List String
  | [] => []
  | x :: xs => rankInsert le x (rankSort le xs)

/-- Modelled from the spec: §4.2 step 7 (and §7) — assembly statistics:
total papers, intermediate papers added, total edges, unresolved seed count. -/
structure AssemblyStats where
  total_papers : Nat
  intermediate_papers_added : Nat
  total_edges : Nat
  unresolved_seed_count : Nat
  deriving Repr, DecidableEq

/-- Modelled from the spec: §4.2 Network Assembler,
`assemble(seeds, include_intermediate, max_intermediate = 100)` (the engine
source itself is not in `src/`). Unresolvable seeds are dropped; zero
resolvable seeds fail (`NoPapersResolved`, embedded as `none`); with
intermediates, candidates from all seeds' reference/citer lists are
de-duplicated, scored by frequency, ordered by descending score then
ascending identifier, and the top `max_intermediate` are materialized with
`paper_source = "intermediate"`. -/
def assemble (src : MetadataSource) (seeds : List String)
    (include_intermediate : Bool) (max_intermediate : Nat := 100) :
    Option (ResearchGraph × AssemblyStats) :=
  let resolved := seeds.filterMap src.resolve
  let unresolved := seeds.countP (fun s => (src.resolve s).isNone)
  if resolved.isEmpty then none
  else
    let seedIds := resolved.map (fun r => r.id)
    let seedNodes := resolved.map (fun r => mkPaperNode r "input")
    if include_intermediate then
      let candidates :=
        (resolved.flatMap (fun r => src.references r.id ++ src.citers r.id)).filter
          (fun c => !(seedIds.contains c))
      let score := fun c => candidates.count c
      let ranked := rankSort
        (fun a b => score b < score a || (score b == score a && idLe a b))
        candidates.dedup
      let selected := ranked.take max_intermediate
      let interNodes := selected.filterMap
        (fun c => (src.resolve c).map (fun r => mkPaperNode r "intermediate"))
      let allIds := seedIds ++ interNodes.map (fun n => n.id)
      let edges := dedupEdgesByPair (observedEdges src allIds)
      some
        ({ id := "graph", name := "assembled graph", nodes := seedNodes ++ interNodes
           edges := edges, metadata := [], extractors_applied := [] },
         { total_papers := seedNodes.length + interNodes.length
           intermediate_papers_added := interNodes.length
           total_edges := edges.length
           unresolved_seed_count := unresolved })
    else
      let edges := dedupEdgesByPair (observedEdges src seedIds)
      some
        ({ id := "graph", name := "assembled graph", nodes := seedNodes
           edges := edges, metadata := [], extractors_applied := [] },
         { total_papers := seedNodes.length
           intermediate_papers_added := 0
           total_edges := edges.length
           unresolved_seed_count := unresolved })

/-- The nodes of a graph tagged `paper_source = "intermediate"`. -/
def countIntermediates (g : ResearchGraph) : Nat :=
  (g.nodes.filter (fun n =>
    n.attributes.lookup "paper_source" == some "intermediate")).length

/-! ## Client-side build statistics (`src/lib/api.ts` lines 49–57)

`BuildGraphResponse.stats` — the statistics object the client actually
receives — has exactly the fields `total_papers`, `intermediate_papers_added`
and `total_citations`. -/

/-- `BuildGraphResponse.stats` from `src/lib/api.ts`. -/
structure BuildGraphStats where
  total_papers : Nat
  intermediate_papers_added : Nat
  total_citations : Nat
  deriving Repr, DecidableEq

/-- The literal field names of `BuildGraphResponse.stats` in `src/lib/api.ts`. -/
def buildGraphStatsFields : List String :=
  ["total_papers", "intermediate_papers_added", "total_citations"]

/-- Modelled from the spec: what survives of the §4.2 step 7 assembly
statistics in the response type the client receives (`total_citations`
carries the total edge count; there is no field for the unresolved seed
count). -/
def toClientStats (s : AssemblyStats) : BuildGraphStats :=
  { total_papers := s.total_papers
    intermediate_papers_added := s.intermediate_papers_added
    total_citations := s.total_edges }

/-! ## Theorems -/

/-- C8: for every title and every `maxLength ≥ 3`, `truncateTitle` returns a
string of length at most `maxLength`; it returns the title itself exactly when
the title fits, and otherwise the first `maxLength - 3` characters followed by
`'...'`, of length exactly `maxLength`. -/
theorem truncateTitle_correct (title : JStr) (maxLength : Nat) (h : 3 ≤ maxLength) :
    (truncateTitle title maxLength).length ≤ maxLength ∧
    (title.length ≤ maxLength → truncateTitle title maxLength = title) ∧
    (maxLength < title.length →
      truncateTitle title maxLength = title.take (maxLength - 3) ++ ['.', '.', '.'] ∧
      (truncateTitle title maxLength).length = maxLength) := by
  refine ⟨?_, ?_, ?_⟩
  · by_cases hc : title.length ≤ maxLength
    · simp [truncateTitle, hc]
    · rw [truncateTitle, if_neg hc]
      simp only [List.length_append, List.length_take, List.length_cons, List.length_nil]
      omega
  · intro hle
    simp [truncateTitle, hle]
  · intro hlt
    have hne : ¬ title.length ≤ maxLength := by omega
    refine ⟨by rw [truncateTitle, if_neg hne], ?_⟩
    rw [truncateTitle, if_neg hne]
    simp only [List.length_append, List.length_take, List.length_cons, List.length_nil]
    omega

/-- Witness for C8 at the concrete title `"abcdefgh"` and `maxLength = 6`. -/
theorem truncateTitle_correct_witness :
    (truncateTitle ['a', 'b', 'c', 'd', 'e', 'f', 'g', 'h'] 6).length ≤ 6 ∧
    (List.length ['a', 'b', 'c', 'd', 'e', 'f', 'g', 'h'] ≤ 6 →
      truncateTitle ['a', 'b', 'c', 'd', 'e', 'f', 'g', 'h'] 6 =
        ['a', 'b', 'c', 'd', 'e', 'f', 'g', 'h']) ∧
    (6 < List.length ['a', 'b', 'c', 'd', 'e', 'f', 'g', 'h'] →
      truncateTitle ['a', 'b', 'c', 'd', 'e', 'f', 'g', 'h'] 6 =
        List.take (6 - 3) ['a', 'b', 'c', 'd', 'e', 'f', 'g', 'h'] ++ ['.', '.', '.'] ∧
      (truncateTitle ['a', 'b', 'c', 'd', 'e', 'f', 'g', 'h'] 6).length = 6) :=
  truncateTitle_correct ['a', 'b', 'c', 'd', 'e', 'f', 'g', 'h'] 6 (by norm_num)

/-- Characterization of the key/value pairs `GraphAPI.buildGraph` puts on the
request URL. -/
theorem mem_buildGraphQueryParams (options : BuildGraphOptions) (k val : String) :
    ((k, val) ∈ buildGraphQueryParams options) ↔
      (k = "include_intermediate" ∧ val = "true" ∧
        options.includeIntermediate = some true) ∨
      (k = "max_depth" ∧ ∃ n : Int, options.maxDepth = some n ∧ n ≠ 0 ∧
        val = toString n) := by
  obtain ⟨ii, md⟩ := options
  match ii, md with
  | none, none => simp [buildGraphQueryParams]
  | some false, none => simp [buildGraphQueryParams]
  | some true, none => simp [buildGraphQueryParams]
  | none, some n => by_cases hn : n = 0 <;> simp [buildGraphQueryParams, hn]
  | some false, some n => by_cases hn : n = 0 <;> simp [buildGraphQueryParams, hn]
  | some true, some n =>
    by_cases hn : n = 0 <;> simp [buildGraphQueryParams, hn, and_assoc]

/-- Characterization of the query-parameter keys of `GraphAPI.buildGraph`. -/
theorem key_mem_buildGraphQueryParams (options : BuildGraphOptions) (k : String) :
    (k ∈ (buildGraphQueryParams options).map Prod.fst) ↔
      (k = "include_intermediate" ∧ options.includeIntermediate = some true) ∨
      (k = "max_depth" ∧ ∃ n : Int, options.maxDepth = some n ∧ n ≠ 0) := by
  simp only [List.mem_map]
  constructor
  · rintro ⟨⟨k', val⟩, hmem, rfl⟩
    rcases (mem_buildGraphQueryParams options k' val).mp hmem with
      ⟨hk, _, hopt⟩ | ⟨hk, n, hmd, hn, _⟩
    · exact Or.inl ⟨hk, hopt⟩
    · exact Or.inr ⟨hk, n, hmd, hn⟩
  · rintro (⟨rfl, hopt⟩ | ⟨rfl, n, hmd, hn⟩)
    · exact ⟨("include_intermediate", "true"),
        (mem_buildGraphQueryParams options _ _).mpr (Or.inl ⟨rfl, rfl, hopt⟩), rfl⟩
    · exact ⟨("max_depth", toString n),
        (mem_buildGraphQueryParams options _ _).mpr (Or.inr ⟨rfl, n, hmd, hn, rfl⟩), rfl⟩

/-- C10: the request URL of `GraphAPI.buildGraph` carries
`include_intermediate` (always with value `"true"`) exactly when the caller
passed `includeIntermediate = true`, and carries `max_depth` exactly when the
caller passed a nonzero `maxDepth`; passing `includeIntermediate = false` or
`maxDepth = 0` is indistinguishable on the wire from omitting the option. -/
theorem buildGraph_query_params_correct :
    (∀ options : BuildGraphOptions,
      (("include_intermediate" ∈ (buildGraphQueryParams options).map Prod.fst) ↔
        options.includeIntermediate = some true) ∧
      (∀ s, ("include_intermediate", s) ∈ buildGraphQueryParams options → s = "true") ∧
      (("max_depth" ∈ (buildGraphQueryParams options).map Prod.fst) ↔
        ∃ v : Int, options.maxDepth = some v ∧ v ≠ 0)) ∧
    (∀ md, buildGraphQueryParams ⟨some false, md⟩ = buildGraphQueryParams ⟨none, md⟩) ∧
    (∀ ii, buildGraphQueryParams ⟨ii, some 0⟩ = buildGraphQueryParams ⟨ii, none⟩) := by
  refine ⟨fun options => ⟨?_, ?_, ?_⟩, fun md => rfl, fun ii => by
    simp [buildGraphQueryParams]⟩
  · rw [key_mem_buildGraphQueryParams]
    constructor
    · rintro (⟨_, hopt⟩ | ⟨hk, _⟩)
      · exact hopt
      · exact absurd hk (by decide)
    · exact fun hopt => Or.inl ⟨rfl, hopt⟩
  · intro s hs
    rcases (mem_buildGraphQueryParams options _ _).mp hs with
      ⟨_, hv, _⟩ | ⟨hk, _⟩
    · exact hv
    · exact absurd hk (by decide)
  · rw [key_mem_buildGraphQueryParams]
    constructor
    · rintro (⟨hk, _⟩ | ⟨_, hex⟩)
      · exact absurd hk (by decide)
      · exact hex
    · exact fun hex => Or.inr ⟨rfl, hex⟩

/-- Witness for C10: with `includeIntermediate = true` and `maxDepth = 3` the
URL carries a `max_depth` parameter. -/
theorem buildGraph_query_params_correct_witness :
    "max_depth" ∈ (buildGraphQueryParams ⟨some true, some 3⟩).map Prod.fst :=
  ((buildGraph_query_params_correct.1 ⟨some true, some 3⟩).2.2).mpr ⟨3, rfl, by decide⟩

/-- Every graph node whose id is not an input-paper id yields a node element
of the display conversion; its emitted id is the node's id unless an
attributes entry keyed `"id"` overrides it. -/
theorem node_element_of_mem (g : ResearchGraph) (n : PaperNode) (hn : n ∈ g.nodes)
    (hni : (inputPaperIds g).contains n.id = false) :
    ∃ nd : NodeElementData,
      CyElement.node nd ∈ convertGraphToCytoscape g ∧
        nd.id = (n.attributes.lookup "id").getD n.id := by
  have hmem : n.id ∉ inputPaperIds g := by simpa using hni
  refine ⟨_, List.mem_append_left _ (List.mem_map_of_mem _ ?_), rfl⟩
  exact List.mem_filter.mpr ⟨hn, by simpa using hmem⟩

/-- Every edge element of the display conversion comes from a graph edge whose
endpoints are both outside the input-paper id set. -/
theorem edge_element_sound (g : ResearchGraph) (d : EdgeElementData)
    (hd : CyElement.edge d ∈ convertGraphToCytoscape g) :
    ∃ e ∈ g.edges, e.from_paper = d.source ∧ e.to_paper = d.target ∧
      (inputPaperIds g).contains e.from_paper = false ∧
      (inputPaperIds g).contains e.to_paper = false := by
  rcases List.mem_append.mp hd with h | h
  · rcases List.mem_map.mp h with ⟨n, _, hne⟩
    exact absurd hne (by simp)
  · rcases List.mem_filterMap.mp h with ⟨e, he, hee⟩
    by_cases hskip : ((inputPaperIds g).contains e.from_paper ||
        (inputPaperIds g).contains e.to_paper) = true
    · rw [if_pos hskip] at hee
      exact absurd hee (by simp)
    · rw [if_neg hskip] at hee
      simp only [Bool.or_eq_true, not_or, Bool.not_eq_true] at hskip
      refine ⟨e, he, ?_, ?_, hskip.1, hskip.2⟩
      · cases hee; rfl
      · cases hee; rfl

/-- The emitted ids of the node elements of a converted graph, in order. -/
def nodeElementIds (els : List CyElement) : List String :=
  els.filterMap (fun el =>
    match el with
    | CyElement.node d => some d.id
    | CyElement.edge _ => none)

/-- The source ids of the edge elements of a converted graph, in order. -/
def edgeElementSources (els : List CyElement) : List String :=
  els.filterMap (fun el =>
    match el with
    | CyElement.edge d => some d.source
    | CyElement.node _ => none)

/-- A two-node graph (no input papers) whose node `A` carries an attributes
entry keyed `"id"` with value `"Z"`, plus an edge `A → B`. -/
def idOverrideGraph : ResearchGraph :=
  { id := "gz"
    name := "id override"
    nodes :=
      [ { id := "A", title := ['A'], authors := [], publication_date := none
          venue := none, abstract := "", citation_count := none
          attributes := [("id", "Z")]
          visual := ⟨"#fff", 10, "ellipse", 1⟩ }
      , { id := "B", title := ['B'], authors := [], publication_date := none
          venue := none, abstract := "", citation_count := none
          attributes := []
          visual := ⟨"#fff", 10, "ellipse", 1⟩ } ]
    edges :=
      [ { id := "e1", from_paper := "A", to_paper := "B"
          contribution_type := "reference", strength := 1, context := ""
          delta_description := none, visual := ⟨"#999", 1, "solid", 1⟩ } ]
    metadata := []
    extractors_applied := [] }

/-- C1 counterexample: because the data literal spreads `node.attributes`
after writing `id`, node `A`'s attributes entry `id: "Z"` overrides the
emitted element id — the conversion emits node elements with ids `Z` and `B`
and still emits the edge with source `A`, for which no node element exists,
even though every edge endpoint occurs in the graph's node list. -/
theorem convert_id_override_cex :
    (∀ e ∈ idOverrideGraph.edges,
      e.from_paper ∈ nodeIds idOverrideGraph ∧
      e.to_paper ∈ nodeIds idOverrideGraph) ∧
    nodeElementIds (convertGraphToCytoscape idOverrideGraph) = ["Z", "B"] ∧
    edgeElementSources (convertGraphToCytoscape idOverrideGraph) = ["A"] ∧
    "A" ∉ nodeElementIds (convertGraphToCytoscape idOverrideGraph) := by
  have h1 : nodeElementIds (convertGraphToCytoscape idOverrideGraph) =
      ["Z", "B"] := by
    unfold nodeElementIds convertGraphToCytoscape idOverrideGraph
      inputPaperIds directlyReferencedIds
    simp [List.lookup]
  refine ⟨by decide, h1, ?_, by rw [h1]; decide⟩
  unfold edgeElementSources convertGraphToCytoscape idOverrideGraph
    inputPaperIds directlyReferencedIds
  simp [List.lookup]

/-- C1 (amended): if every edge endpoint of a `ResearchGraph` occurs in its
node list, and no node's attributes entry keyed `"id"` overrides its id, then
for each edge element emitted by `convertGraphToCytoscape` the element list
also contains node elements for the edge's source and target — the conversion
never retains an edge without both endpoints. -/
theorem convertGraphToCytoscape_edges_never_partial (g : ResearchGraph)
    (hid : ∀ n ∈ g.nodes, (n.attributes.lookup "id").getD n.id = n.id)
    (h : ∀ e ∈ g.edges, e.from_paper ∈ nodeIds g ∧ e.to_paper ∈ nodeIds g) :
    ∀ d : EdgeElementData, CyElement.edge d ∈ convertGraphToCytoscape g →
      (∃ nd : NodeElementData,
        CyElement.node nd ∈ convertGraphToCytoscape g ∧ nd.id = d.source) ∧
      (∃ nd : NodeElementData,
        CyElement.node nd ∈ convertGraphToCytoscape g ∧ nd.id = d.target) := by
  intro d hd
  rcases edge_element_sound g d hd with ⟨e, he, hfrom, hto, hf, ht⟩
  rcases h e he with ⟨hfn, htn⟩
  rcases List.mem_map.mp hfn with ⟨nf, hnf, hnfid⟩
  rcases List.mem_map.mp htn with ⟨nt, hnt, hntid⟩
  constructor
  · rcases node_element_of_mem g nf hnf (by rw [hnfid]; exact hf) with
      ⟨nd, hmem, hid'⟩
    exact ⟨nd, hmem, by rw [hid', hid nf hnf, hnfid, hfrom]⟩
  · rcases node_element_of_mem g nt hnt (by rw [hntid]; exact ht) with
      ⟨nd, hmem, hid'⟩
    exact ⟨nd, hmem, by rw [hid', hid nt hnt, hntid, hto]⟩

/-- A concrete two-node, one-edge graph (no input papers) exercising C1. -/
def witnessGraphC1 : ResearchGraph :=
  { id := "g1"
    name := "demo"
    nodes :=
      [ { id := "A", title := ['A'], authors := [], publication_date := none
          venue := none, abstract := "", citation_count := some 4
          attributes := [("paper_source", "intermediate")]
          visual := ⟨"#fff", 10, "ellipse", 1⟩ }
      , { id := "B", title := ['B'], authors := [], publication_date := none
          venue := none, abstract := "", citation_count := none
          attributes := []
          visual := ⟨"#fff", 10, "ellipse", 1⟩ } ]
    edges :=
      [ { id := "e1", from_paper := "A", to_paper := "B"
          contribution_type := "reference", strength := 1, context := ""
          delta_description := none, visual := ⟨"#999", 1, "solid", 1⟩ } ]
    metadata := []
    extractors_applied := [] }

/-- The edge element the conversion emits for the single edge of
`witnessGraphC1`. -/
def witnessEdgeElement : EdgeElementData :=
  { id := "e1", source := "A", target := "B", label := "reference"
    contribution_type := "reference", context := "", delta_description := none
    strength := 1 }

/-- Witness for C1 (amended) on `witnessGraphC1` (whose nodes carry no
overriding `"id"` attribute), at its single emitted edge element. -/
theorem convertGraphToCytoscape_edges_never_partial_witness :
    (∃ nd : NodeElementData,
      CyElement.node nd ∈ convertGraphToCytoscape witnessGraphC1 ∧
        nd.id = witnessEdgeElement.source) ∧
    (∃ nd : NodeElementData,
      CyElement.node nd ∈ convertGraphToCytoscape witnessGraphC1 ∧
        nd.id = witnessEdgeElement.target) :=
  convertGraphToCytoscape_edges_never_partial witnessGraphC1 (by decide)
    (by decide) witnessEdgeElement (by decide)

/-- A materialized node's provenance tag is the one fixed at creation. -/
theorem lookup_mkPaperNode (r : PaperRecord) (s : String) :
    (mkPaperNode r s).attributes.lookup "paper_source" = some s := by
  simp [mkPaperNode]

/-- Seed nodes are never counted as intermediates. -/
theorem countP_intermediate_seedNodes (rs : List PaperRecord) :
    (rs.map (fun r => mkPaperNode r "input")).countP
      (fun n => n.attributes.lookup "paper_source" == some "intermediate") = 0 := by
  rw [List.countP_eq_zero]
  intro n hn
  rcases List.mem_map.mp hn with ⟨r, _, rfl⟩
  simp [lookup_mkPaperNode]

/-- C2 counterexample: even a caller supplying every `buildGraph` option
produces only the query keys `include_intermediate` and `max_depth`; the
client exposes no way to pass `max_intermediate`. -/
theorem buildGraph_options_lack_max_intermediate :
    (buildGraphQueryParams ⟨some true, some 7⟩).map Prod.fst =
      ["include_intermediate", "max_depth"] ∧
    "max_intermediate" ∉ (buildGraphQueryParams ⟨some true, some 7⟩).map Prod.fst := by
  decide

/-- C2 (amended): the assembly modelled from the spec produces at most
`max_intermediate` nodes tagged `intermediate` (`max_intermediate` defaulting
to 100), but the build operation the client exposes does not accept this
bound: its only query parameters are `include_intermediate` and `max_depth`. -/
theorem assemble_intermediate_bound (src : MetadataSource) (seeds : List String)
    (N : Nat) (g : ResearchGraph) (stats : AssemblyStats)
    (h : assemble src seeds true N = some (g, stats)) :
    countIntermediates g ≤ N ∧
    (∀ src' seeds' b, assemble src' seeds' b = assemble src' seeds' b 100) ∧
    (∀ (options : BuildGraphOptions) (k : String),
      k ∈ (buildGraphQueryParams options).map Prod.fst →
        k = "include_intermediate" ∨ k = "max_depth") := by
  refine ⟨?_, fun _ _ _ => rfl, ?_⟩
  · simp only [assemble] at h
    split at h
    · exact absurd h (by simp)
    · simp only [if_true, Option.some.injEq, Prod.mk.injEq] at h
      obtain ⟨hg, -⟩ := h
      subst hg
      unfold countIntermediates
      simp only [List.filter_append, List.length_append,
        ← List.countP_eq_length_filter, countP_intermediate_seedNodes, Nat.zero_add]
      calc List.countP _ _ ≤ _ := List.countP_le_length _
        _ ≤ _ := List.length_filterMap_le _ _
        _ ≤ N := List.length_take_le _ _
  · intro options k hk
    rcases (key_mem_buildGraphQueryParams options k).mp hk with ⟨hk', -⟩ | ⟨hk', -⟩
    · exact Or.inl hk'
    · exact Or.inr hk'

/-- A one-seed metadata source used by concrete witnesses. -/
def witnessRecord : PaperRecord :=
  { id := "A", title := ['A'], authors := [], publication_date := none
    venue := none, abstract := "", citation_count := none }

/-- A metadata source resolving only the seed `"A"`, with no references or
citers. -/
def witnessSource : MetadataSource :=
  { resolve := fun s => if s == "A" then some witnessRecord else none
    references := fun _ => []
    citers := fun _ => [] }

/-- Witness for C2: a concrete assembly with `max_intermediate = 5` keeps at
most 5 intermediates. -/
theorem assemble_intermediate_bound_witness :
    countIntermediates
      { id := "graph", name := "assembled graph"
        nodes := [mkPaperNode witnessRecord "input"], edges := []
        metadata := [], extractors_applied := [] } ≤ 5 ∧
    (∀ src' seeds' b, assemble src' seeds' b = assemble src' seeds' b 100) ∧
    (∀ (options : BuildGraphOptions) (k : String),
      k ∈ (buildGraphQueryParams options).map Prod.fst →
        k = "include_intermediate" ∨ k = "max_depth") :=
  assemble_intermediate_bound witnessSource ["A"] 5
    { id := "graph", name := "assembled graph"
      nodes := [mkPaperNode witnessRecord "input"], edges := []
      metadata := [], extractors_applied := [] }
    ⟨1, 0, 0, 0⟩ (by decide)

/-- The displayed `paper_source` values of the node elements of a converted
graph. -/
def nodePaperSources (els : List CyElement) : List String :=
  els.filterMap (fun el =>
    match el with
    | CyElement.node d => some d.paper_source
    | CyElement.edge _ => none)

/-- A one-node graph whose node was created with
`paper_source = "intermediate"`. -/
def intermediateOnlyGraph : ResearchGraph :=
  { id := "g3"
    name := "one intermediate"
    nodes :=
      [ { id := "X", title := ['X'], authors := [], publication_date := none
          venue := none, abstract := "", citation_count := none
          attributes := [("paper_source", "intermediate")]
          visual := ⟨"#fff", 10, "ellipse", 1⟩ } ]
    edges := []
    metadata := []
    extractors_applied := [] }

/-- C3 counterexample: the display conversion rewrites the `paper_source` of a
node created as `intermediate` to `"connecting"`, a value outside
`{input, intermediate}`. -/
theorem convert_rewrites_paper_source_cex :
    nodePaperSources (convertGraphToCytoscape intermediateOnlyGraph) = ["connecting"] ∧
    ¬("connecting" = "input" ∨ "connecting" = "intermediate") := by
  constructor
  · unfold nodePaperSources convertGraphToCytoscape intermediateOnlyGraph
      inputPaperIds directlyReferencedIds
    simp
  · decide

/-- C3 (amended): `paper_source` is fixed at node creation to `input` or
`intermediate` (spec-modelled assembly), but the display conversion does not
preserve it: every node element it emits carries `paper_source` `"reviewed"`
or `"connecting"` (input-paper nodes are dropped altogether). -/
theorem paper_source_creation_and_display :
    (∀ (src : MetadataSource) (seeds : List String) (b : Bool) (N : Nat)
       (g : ResearchGraph) (stats : AssemblyStats),
       assemble src seeds b N = some (g, stats) →
       ∀ n ∈ g.nodes,
         n.attributes.lookup "paper_source" = some "input" ∨
         n.attributes.lookup "paper_source" = some "intermediate") ∧
    (∀ (g : ResearchGraph) (d : NodeElementData),
       CyElement.node d ∈ convertGraphToCytoscape g →
       d.paper_source = "reviewed" ∨ d.paper_source = "connecting") := by
  constructor
  · intro src seeds b N g stats h n hn
    simp only [assemble] at h
    split at h
    · exact absurd h (by simp)
    · split at h <;>
      · simp only [Option.some.injEq, Prod.mk.injEq] at h
        obtain ⟨hg, -⟩ := h
        subst hg
        simp only [List.mem_append, List.mem_map, List.mem_filterMap,
          Option.map_eq_some'] at hn
        first
        | (rcases hn with ⟨r, -, rfl⟩ | ⟨c, -, r, -, rfl⟩
           · exact Or.inl (lookup_mkPaperNode r "input")
           · exact Or.inr (lookup_mkPaperNode r "intermediate"))
        | (rcases hn with ⟨r, -, rfl⟩
           exact Or.inl (lookup_mkPaperNode r "input"))
  · intro g d hd
    rcases List.mem_append.mp hd with h | h
    · rcases List.mem_map.mp h with ⟨n, -, hne⟩
      by_cases hrev : (directlyReferencedIds g).contains n.id
      · simp only [hrev, if_true] at hne
        cases hne
        exact Or.inl rfl
      · simp only [hrev, if_false] at hne
        cases hne
        exact Or.inr rfl
    · rcases List.mem_filterMap.mp h with ⟨e, -, hee⟩
      split at hee
      · exact absurd hee (by simp)
      · exact absurd hee (by simp)

/-- The node element the display conversion emits for
`intermediateOnlyGraph`. -/
def witnessElement : NodeElementData :=
  { id := "X", label := ['X'], title := ['X'], authors := JsVal.strList []
    abstract := "", citation_count := JsVal.int 0, publication_date := none
    venue := none
    size := JsVal.rat (max 35 (min 60 (35 + ((0 : Int) : Rat) / 12)))
    attributes := [("paper_source", "intermediate")]
    paper_source := "connecting" }

/-- Witness for C3 (amended): the seed-only assembly over `witnessSource`
creates only `input`-tagged nodes, and the node element the conversion emits
for `intermediateOnlyGraph` is tagged `"connecting"`. -/
theorem paper_source_creation_and_display_witness :
    (∀ n ∈ ({ id := "graph", name := "assembled graph"
              nodes := [mkPaperNode witnessRecord "input"], edges := []
              metadata := [], extractors_applied := [] } : ResearchGraph).nodes,
       n.attributes.lookup "paper_source" = some "input" ∨
       n.attributes.lookup "paper_source" = some "intermediate") ∧
    (witnessElement.paper_source = "reviewed" ∨
     witnessElement.paper_source = "connecting") :=
  And.intro
    (paper_source_creation_and_display.1 witnessSource ["A"] false 100
      { id := "graph", name := "assembled graph"
        nodes := [mkPaperNode witnessRecord "input"], edges := []
        metadata := [], extractors_applied := [] }
      ⟨1, 0, 0, 0⟩ (by decide))
    (paper_source_creation_and_display.2 intermediateOnlyGraph witnessElement
      (by simp [convertGraphToCytoscape, intermediateOnlyGraph, inputPaperIds,
        directlyReferencedIds, truncateTitle, witnessElement, List.lookup]))

/-- C5 counterexample: two assemblies whose statistics differ only in the
unresolved-seed count produce identical client-visible stats — the response
type the client receives has exactly three fields and records no unresolved
seed count. -/
theorem client_stats_drop_unresolved_cex :
    toClientStats ⟨10, 4, 20, 0⟩ = toClientStats ⟨10, 4, 20, 5⟩ ∧
    buildGraphStatsFields.length = 3 ∧
    "unresolved_seed_count" ∉ buildGraphStatsFields ∧
    "unresolved_seeds" ∉ buildGraphStatsFields := by
  decide

/-- C5 (amended): every successful assembly returns statistics recording
total papers, intermediate papers added and total edges, and those three
survive into the client's `BuildGraphResponse.stats` (`total_citations`
carrying the edge count); the unresolved-seed count is recorded by the
spec-modelled assembly but has no field in the client's response type, which
therefore cannot distinguish statistics differing only in it. -/
theorem build_stats_recorded :
    (∀ (src : MetadataSource) (seeds : List String) (b : Bool) (N : Nat)
       (g : ResearchGraph) (stats : AssemblyStats),
       assemble src seeds b N = some (g, stats) →
       stats.total_papers = g.nodes.length ∧
       stats.intermediate_papers_added = countIntermediates g ∧
       stats.total_edges = g.edges.length ∧
       stats.unresolved_seed_count =
         seeds.countP (fun s => (src.resolve s).isNone)) ∧
    (∀ s : AssemblyStats,
       (toClientStats s).total_papers = s.total_papers ∧
       (toClientStats s).intermediate_papers_added = s.intermediate_papers_added ∧
       (toClientStats s).total_citations = s.total_edges) ∧
    (∀ s t : AssemblyStats, s.total_papers = t.total_papers →
       s.intermediate_papers_added = t.intermediate_papers_added →
       s.total_edges = t.total_edges → toClientStats s = toClientStats t) := by
  refine ⟨?_, fun s => ⟨rfl, rfl, rfl⟩, ?_⟩
  · intro src seeds b N g stats h
    simp only [assemble] at h
    split at h
    · exact absurd h (by simp)
    · split at h <;>
      · simp only [Option.some.injEq, Prod.mk.injEq] at h
        obtain ⟨hg, hs⟩ := h
        subst hg
        subst hs
        refine ⟨by simp, ?_, rfl, rfl⟩
        unfold countIntermediates
        simp only [List.filter_append, List.length_append,
          ← List.countP_eq_length_filter, countP_intermediate_seedNodes, Nat.zero_add]
        try
          first
          | (refine (List.countP_eq_length.mpr ?_).symm
             intro n hn
             rcases List.mem_filterMap.mp hn with ⟨c, -, hc⟩
             rcases Option.map_eq_some'.mp hc with ⟨r, -, rfl⟩
             simp [lookup_mkPaperNode])
          | rfl
  · intro s t h1 h2 h3
    unfold toClientStats
    rw [h1, h2, h3]

/-- Witness for C5 (amended) at a concrete assembly and concrete statistics
values. -/
theorem build_stats_recorded_witness :
    (⟨1, 0, 0, 0⟩ : AssemblyStats).total_papers =
        ({ id := "graph", name := "assembled graph"
           nodes := [mkPaperNode witnessRecord "input"], edges := []
           metadata := [], extractors_applied := [] } : ResearchGraph).nodes.length ∧
      (⟨1, 0, 0, 0⟩ : AssemblyStats).intermediate_papers_added =
        countIntermediates
          { id := "graph", name := "assembled graph"
            nodes := [mkPaperNode witnessRecord "input"], edges := []
            metadata := [], extractors_applied := [] } ∧
      (⟨1, 0, 0, 0⟩ : AssemblyStats).total_edges =
        ({ id := "graph", name := "assembled graph"
           nodes := [mkPaperNode witnessRecord "input"], edges := []
           metadata := [], extractors_applied := [] } : ResearchGraph).edges.length ∧
      (⟨1, 0, 0, 0⟩ : AssemblyStats).unresolved_seed_count =
        (["A"] : List String).countP (fun s => (witnessSource.resolve s).isNone) :=
  build_stats_recorded.1 witnessSource ["A"] false 100
    { id := "graph", name := "assembled graph"
      nodes := [mkPaperNode witnessRecord "input"], edges := []
      metadata := [], extractors_applied := [] }
    ⟨1, 0, 0, 0⟩ (by decide)

/-! ## Edge-innovation extraction, modelled from the spec

The batch and single-edge comparison operations (`compare_edges`,
`compare_single_edge` of §6, error policy of §4.6 and §7) run in the backend,
which is not in `src/`; the client (`src/lib/api.ts` lines 283–330) shows the
result shapes (`{edges_processed, total_edges}` stats, and a single-edge
result `{short_label, full_insight}`), and `EdgeDetailModal.handleExtractSingle`
(`src/unnamed/part_005`) shows that `context` carries the innovation label and
`delta_description` the full insight. -/

/-- Modelled from the spec: the structured result the text-understanding
collaborator produces for one edge (shape from the client's
`extractSingleEdge` response type). -/
structure InnovationResult where
  short_label : String
  full_insight : String
  deriving Repr, DecidableEq

/-- Writing a collaborator result back into an edge: the innovation label
goes to `context`, the full insight to `delta_description`. -/
def applyInnovation (e : CitationEdge) (r : InnovationResult) : CitationEdge :=
  { e with context := r.short_label, delta_description := some r.full_insight }

/-- The outcome of a batch edge-comparison run: the successfully updated
edges and the ids of the edges whose extraction failed. -/
structure BatchExtractOutcome where
  updated : List CitationEdge
  failed : List String
  deriving Repr, DecidableEq

/-- Modelled from the spec: §7 propagation policy — a batch edge-comparison
run applies the collaborator to every edge independently; a failure
(`ExtractionFailed`, embedded as `none`) on one edge never aborts the batch,
it is aggregated into the failed list alongside the successful partial
result. -/
def extractEdgeInnovationsBatch (collab : CitationEdge → Option InnovationResult)
    (edges : List CitationEdge) : BatchExtractOutcome :=
  { updated := edges.filterMap (fun e => (collab e).map (applyInnovation e))
    failed := (edges.filter (fun e => (collab e).isNone)).map (fun e => e.id) }

/-- Modelled from the spec: §6 `compare_single_edge(graph_id, edge_id)`, the
per-item retry of a failed batch item. -/
def extractSingleEdgeOp (collab : CitationEdge → Option InnovationResult)
    (e : CitationEdge) : Option CitationEdge :=
  (collab e).map (applyInnovation e)

/-- The length of a `filterMap` counts the inputs mapped to `some`. -/
theorem length_filterMap_eq_countP {α β : Type} (f : α → Option β) (l : List α) :
    (l.filterMap f).length = l.countP (fun a => (f a).isSome) := by
  induction l with
  | nil => rfl
  | cons a l ih =>
    rw [List.filterMap_cons, List.countP_cons]
    cases h : f a <;> simp [h, ih]

/-- C6: a collaborator failure on one edge of a batch never aborts it — every
edge on which the collaborator succeeds appears updated in the result, the
failing edge is reported in the failed list, every edge is accounted for
(updated and failed partition the batch), and the failed edge remains
individually retryable through the single-edge operation. -/
theorem batch_extract_failure_isolation
    (collab : CitationEdge → Option InnovationResult)
    (edges : List CitationEdge) (e : CitationEdge)
    (he : e ∈ edges) (hf : collab e = none) :
    (∀ e' ∈ edges, ∀ r, collab e' = some r →
       applyInnovation e' r ∈ (extractEdgeInnovationsBatch collab edges).updated) ∧
    e.id ∈ (extractEdgeInnovationsBatch collab edges).failed ∧
    (extractEdgeInnovationsBatch collab edges).updated.length +
      (extractEdgeInnovationsBatch collab edges).failed.length = edges.length ∧
    (∀ (collab2 : CitationEdge → Option InnovationResult) (r : InnovationResult),
       collab2 e = some r →
       extractSingleEdgeOp collab2 e = some (applyInnovation e r)) := by
  refine ⟨?_, ?_, ?_, ?_⟩
  · intro e' he' r hr
    exact List.mem_filterMap.mpr ⟨e', he', by rw [hr]; rfl⟩
  · exact List.mem_map.mpr ⟨e, List.mem_filter.mpr ⟨he, by simp [hf]⟩, rfl⟩
  · unfold extractEdgeInnovationsBatch
    rw [List.length_map, ← List.countP_eq_length_filter,
      length_filterMap_eq_countP]
    have h := List.length_eq_countP_add_countP
      (fun e => ((collab e).map (applyInnovation e)).isSome) edges
    rw [h]
    congr 1
    apply List.countP_congr
    intro a _
    cases hc : collab a <;> simp [hc]
  · intro collab2 r hr
    unfold extractSingleEdgeOp
    rw [hr]
    rfl

/-- The three-edge batch of the C6 scenario. -/
def scenarioEdge (i : String) : CitationEdge :=
  { id := i, from_paper := "A", to_paper := "B"
    contribution_type := "reference", strength := 1, context := ""
    delta_description := none, visual := ⟨"#999999", 1, "solid", 1⟩ }

/-- A collaborator that fails exactly on edge `E3`. -/
def scenarioCollab : CitationEdge → Option InnovationResult :=
  fun e => if e.id == "E3" then none else some ⟨"improves training", "details"⟩

/-- Witness for C6: the `{E1, E2, E3}` scenario with a failure on `E3`. -/
theorem batch_extract_failure_isolation_witness :
    (∀ e' ∈ [scenarioEdge "E1", scenarioEdge "E2", scenarioEdge "E3"],
       ∀ r, scenarioCollab e' = some r →
       applyInnovation e' r ∈
         (extractEdgeInnovationsBatch scenarioCollab
           [scenarioEdge "E1", scenarioEdge "E2", scenarioEdge "E3"]).updated) ∧
    (scenarioEdge "E3").id ∈
      (extractEdgeInnovationsBatch scenarioCollab
        [scenarioEdge "E1", scenarioEdge "E2", scenarioEdge "E3"]).failed ∧
    (extractEdgeInnovationsBatch scenarioCollab
        [scenarioEdge "E1", scenarioEdge "E2", scenarioEdge "E3"]).updated.length +
      (extractEdgeInnovationsBatch scenarioCollab
        [scenarioEdge "E1", scenarioEdge "E2", scenarioEdge "E3"]).failed.length =
      [scenarioEdge "E1", scenarioEdge "E2", scenarioEdge "E3"].length ∧
    (∀ (collab2 : CitationEdge → Option InnovationResult) (r : InnovationResult),
       collab2 (scenarioEdge "E3") = some r →
       extractSingleEdgeOp collab2 (scenarioEdge "E3") =
         some (applyInnovation (scenarioEdge "E3") r)) :=
  batch_extract_failure_isolation scenarioCollab
    [scenarioEdge "E1", scenarioEdge "E2", scenarioEdge "E3"]
    (scenarioEdge "E3") (by decide) (by decide)

/-! ## Filter engine, modelled from the spec (§4.5)

The filter endpoint is backend code not in `src/`; the client
(`src/lib/api.ts` lines 187–209, interface `FilterCondition`) shows the
condition shape `{field, operator, value}` and the `AND`/`OR` logic
parameter, and the response shape `{filtered_graph, match_count}`. -/

/-- Substring test on character sequences (JavaScript `includes`). -/
def hasSub (needle : List Char) : List Char → Bool
  | [] => needle.isEmpty
  | c :: rest => needle.isPrefixOf (c :: rest) || hasSub needle rest

/-- Modelled from the spec: a condition value — §9 recommends a tagged union
of known value kinds. -/
inductive FilterValue where
  | str (s : String)
  | num (q : Rat)
  | boolean (b : Bool)
  deriving Repr, DecidableEq

/-- `FilterCondition` from `src/lib/api.ts` (`{field, operator, value}`),
with the open `value: any` embedded as the tagged union. -/
structure FilterCondition where
  field : String
  operator : String
  value : FilterValue
  deriving Repr, DecidableEq

/-- Modelled from the spec: §4.5 — the `AND`/`OR` combination logic. -/
inductive FilterLogic where
  | and
  | or
  deriving Repr, DecidableEq

/-- Modelled from the spec: §4.5 — a condition matches against either a
top-level node field or an `attributes` entry. -/
def fieldValue (n : PaperNode) (field : String) : Option FilterValue :=
  match field with
  | "id" => some (FilterValue.str n.id)
  | "title" => some (FilterValue.str (String.mk n.title))
  | "abstract" => some (FilterValue.str n.abstract)
  | "venue" => n.venue.map FilterValue.str
  | "publication_date" => n.publication_date.map FilterValue.str
  | "citation_count" => n.citation_count.map (fun c => FilterValue.num (c : Rat))
  | _ => (n.attributes.lookup field).map FilterValue.str

/-- Modelled from the spec: §4.5 — supported operators: equality,
inequality, numeric comparison, substring/contains for strings (a condition
with an unknown operator or a type mismatch matches nothing). -/
def evalOp (op : String) (x v : FilterValue) : Bool :=
  match op with
  | "eq" => x == v
  | "neq" => !(x == v)
  | "gt" =>
    match x, v with
    | FilterValue.num a, FilterValue.num b => decide (b < a)
    | _, _ => false
  | "gte" =>
    match x, v with
    | FilterValue.num a, FilterValue.num b => decide (b ≤ a)
    | _, _ => false
  | "lt" =>
    match x, v with
    | FilterValue.num a, FilterValue.num b => decide (a < b)
    | _, _ => false
  | "lte" =>
    match x, v with
    | FilterValue.num a, FilterValue.num b => decide (a ≤ b)
    | _, _ => false
  | "contains" =>
    match x, v with
    | FilterValue.str a, FilterValue.str b => hasSub b.data a.data
    | _, _ => false
  | _ => false

/-- Whether one condition matches one node. -/
def evalCondition (c : FilterCondition) (n : PaperNode) : Bool :=
  match fieldValue n c.field with
  | some x => evalOp c.operator x c.value
  | none => false

/-- Modelled from the spec: §4.5 — `AND`/`OR` applies uniformly across the
whole condition set. -/
def matchesNode (conds : List FilterCondition) (logic : FilterLogic)
    (n : PaperNode) : Bool :=
  match logic with
  | FilterLogic.and => conds.all (fun c => evalCondition c n)
  | FilterLogic.or => conds.any (fun c => evalCondition c n)

/-- Modelled from the spec: §4.5 `filter(graph, conditions, logic) ->
(ResearchGraph, match_count)` — the result graph keeps only matching nodes
and only edges whose endpoints both match. -/
def filterGraph (g : ResearchGraph) (conds : List FilterCondition)
    (logic : FilterLogic) : ResearchGraph × Nat :=
  let keptNodes := g.nodes.filter (matchesNode conds logic)
  let keptIds := keptNodes.map (fun n => n.id)
  let keptEdges := g.edges.filter (fun e =>
    keptIds.contains e.from_paper && keptIds.contains e.to_paper)
  ({ g with nodes := keptNodes, edges := keptEdges }, keptNodes.length)

/-- C7: filtering is idempotent — applying `filter` with the same conditions
and logic to the graph it itself produced returns that graph unchanged,
nodes, edges and match count alike. -/
theorem filterGraph_idempotent (g : ResearchGraph) (conds : List FilterCondition)
    (logic : FilterLogic) :
    filterGraph (filterGraph g conds logic).1 conds logic =
      filterGraph g conds logic := by
  unfold filterGraph
  have hn : (g.nodes.filter (matchesNode conds logic)).filter
      (matchesNode conds logic) = g.nodes.filter (matchesNode conds logic) := by
    simp [List.filter_filter]
  simp only [hn, Prod.mk.injEq]
  refine ⟨?_, trivial⟩
  have he : ∀ e ∈ g.edges.filter (fun e =>
      ((g.nodes.filter (matchesNode conds logic)).map (fun n => n.id)).contains
        e.from_paper &&
      ((g.nodes.filter (matchesNode conds logic)).map (fun n => n.id)).contains
        e.to_paper), (fun e =>
      ((g.nodes.filter (matchesNode conds logic)).map (fun n => n.id)).contains
        e.from_paper &&
      ((g.nodes.filter (matchesNode conds logic)).map (fun n => n.id)).contains
        e.to_paper) e = true := fun e hmem => (List.mem_filter.mp hmem).2
  rw [List.filter_eq_self.mpr he]

/-! ## `parseLinks` (`src/components/PaperUpload.tsx` lines 23–56)

```ts
const parseLinks = (text: string): Array<{type: 'arxiv' | 'doi', value: string}> => {
  const lines = text.split('\n').filter(line => line.trim());
  const papers = [];
  for (const line of lines) {
    const trimmed = line.trim();
    if (trimmed.includes('arxiv.org')) {
      const match = trimmed.match(/(?:arxiv\.org\/abs\/|arxiv\.org\/pdf\/)?([\d.]+)/);
      if (match) { papers.push({ type: 'arxiv', value: match[1] }); continue; }
    }
    if (/^\d{4}\.\d{4,5}(v\d+)?$/.test(trimmed)) {
      papers.push({ type: 'arxiv', value: trimmed.replace(/v\d+$/, '') });
      continue;
    }
    if (trimmed.includes('doi.org/') || trimmed.startsWith('10.')) {
      const match = trimmed.match(/(?:doi\.org\/)?(10\.\d+\/[^\s]+)/);
      if (match) { papers.push({ type: 'doi', value: match[1] }); continue; }
    }
  }
  return papers;
};
```

The regular expressions are embedded by their JavaScript semantics: a match
scans positions left to right; at a position the optional prefix alternatives
are tried in order, then the empty prefix; character-class repetitions are
greedy maximal runs (no shorter run can ever succeed here, since each
repetition is followed by a character outside its class or by the end). -/

/-- JavaScript `String.prototype.trim` on a character sequence. -/
def jsTrim (l : List Char) : List Char :=
  ((l.dropWhile Char.isWhitespace).reverse.dropWhile Char.isWhitespace).reverse

/-- JavaScript `split('\n')`: `""` splits to `[""]`. -/
def splitOnNl : List Char → List (List Char)
  | [] => [[]]
  | c :: rest =>
    let r := splitOnNl rest
    if c = '\n' then [] :: r
    else
      match r with
      | [] => [[c]]
      | h :: t => (c :: h) :: t

/-- The character class `[\d.]` of the arXiv-URL pattern. -/
def isArxChar (c : Char) : Bool := c.isDigit || c == '.'

/-- One alternative of the optional prefix: if `p` starts here, capture the
maximal nonempty `[\d.]+` run after it. -/
def arxAfterPre (p l : List Char) : Option (List Char) :=
  if p.isPrefixOf l then
    let run := (l.drop p.length).takeWhile isArxChar
    if run.isEmpty then none else some run
  else none

/-- The empty-prefix alternative: capture the maximal nonempty `[\d.]+` run
starting here. -/
def arxRunAt (l : List Char) : Option (List Char) :=
  let run := l.takeWhile isArxChar
  if run.isEmpty then none else some run

/-- Try the arXiv-URL pattern anchored at the current position: prefix
alternatives in order, then the bare run. -/
def arxCaptureAt (l : List Char) : Option (List Char) :=
  ((arxAfterPre ("arxiv.org/abs/".data) l).orElse
    (fun _ => arxAfterPre ("arxiv.org/pdf/".data) l)).orElse
    (fun _ => arxRunAt l)

/-- The capture group of
`trimmed.match(/(?:arxiv\.org\/abs\/|arxiv\.org\/pdf\/)?([\d.]+)/)`:
leftmost match over the scan positions. -/
def arxivCapture : List Char → Option (List Char)
  | [] => none
  | c :: rest => (arxCaptureAt (c :: rest)).orElse (fun _ => arxivCapture rest)

/-- The full-string test `/^\d{4}\.\d{4,5}(v\d+)?$/.test(trimmed)`: exactly
four digits, a dot, four or five digits, then optionally `v` and at least one
digit, and nothing else. -/
def standaloneArxivTest (l : List Char) : Bool :=
  let d1 := l.takeWhile Char.isDigit
  let r1 := l.dropWhile Char.isDigit
  d1.length == 4 &&
  (match r1 with
   | c :: r2 =>
     c == '.' &&
     (let d2 := r2.takeWhile Char.isDigit
      let r3 := r2.dropWhile Char.isDigit
      (d2.length == 4 || d2.length == 5) &&
      (match r3 with
       | [] => true
       | c2 :: r4 => c2 == 'v' && !r4.isEmpty && r4.all Char.isDigit))
   | [] => false)

/-- `trimmed.replace(/v\d+$/, '')`: drop a trailing `v` followed by at least
one digit, otherwise return the string unchanged. -/
def stripVersionSuffix (l : List Char) : List Char :=
  let r := l.reverse
  let ds := r.takeWhile Char.isDigit
  let rest := r.dropWhile Char.isDigit
  match rest with
  | c :: rest' => if c == 'v' && !ds.isEmpty then rest'.reverse else l
  | [] => l

/-- The core DOI pattern `10\.\d+\/[^\s]+` anchored at the current
position. -/
def doiCore (l : List Char) : Option (List Char) :=
  match l with
  | a :: b :: c :: rest =>
    if a == '1' && b == '0' && c == '.' then
      let ds := rest.takeWhile Char.isDigit
      let r2 := rest.dropWhile Char.isDigit
      if ds.isEmpty then none
      else
        match r2 with
        | s :: r3 =>
          if s == '/' then
            let tail := r3.takeWhile (fun ch => !ch.isWhitespace)
            if tail.isEmpty then none
            else some ('1' :: '0' :: '.' :: (ds ++ '/' :: tail))
          else none
        | [] => none
    else none
  | _ => none

/-- The DOI pattern at the current position: optional `doi.org/` prefix, then
the core (on prefix-match-then-core-failure the empty-prefix retry at the
same position necessarily fails on the leading `d`). -/
def doiCaptureAt (l : List Char) : Option (List Char) :=
  (if ("doi.org/".data).isPrefixOf l then doiCore (l.drop 8) else none).orElse
    (fun _ => doiCore l)

/-- The capture group of `trimmed.match(/(?:doi\.org\/)?(10\.\d+\/[^\s]+)/)`:
leftmost match over the scan positions. -/
def doiCapture : List Char → Option (List Char)
  | [] => none
  | c :: rest => (doiCaptureAt (c :: rest)).orElse (fun _ => doiCapture rest)

/-- The `'arxiv' | 'doi' | 'pdf'` identifier-type union of
`src/components/PaperUpload.tsx` / `GraphAPI.buildGraph`. -/
inductive PaperRefType where
  | arxiv
  | doi
  | pdf
  deriving Repr, DecidableEq

/-- One parsed `{type, value}` paper entry. -/
structure PaperRef where
  ptype : PaperRefType
  value : List Char
  deriving Repr, DecidableEq

/-- One iteration of the `parseLinks` loop body: the entry the line pushes,
if any. Each branch pushes at most once and then continues; a guard whose
regex fails falls through to the next branch, exactly as in the source. -/
def parseLine (line : List Char) : Option PaperRef :=
  let trimmed := jsTrim line
  if hasSub ("arxiv.org".data) trimmed && (arxivCapture trimmed).isSome then
    some ⟨PaperRefType.arxiv, (arxivCapture trimmed).getD []⟩
  else if standaloneArxivTest trimmed then
    some ⟨PaperRefType.arxiv, stripVersionSuffix trimmed⟩
  else if (hasSub ("doi.org/".data) trimmed || ("10.".data).isPrefixOf trimmed) &&
      (doiCapture trimmed).isSome then
    some ⟨PaperRefType.doi, (doiCapture trimmed).getD []⟩
  else none

/-- `parseLinks`: split into lines, keep lines with a nonempty trim, push at
most one entry per line. -/
def parseLinks (text : List Char) : List PaperRef :=
  ((splitOnNl text).filter (fun l => !(jsTrim l).isEmpty)).filterMap parseLine

/-- A substring's characters all occur in the haystack. -/
theorem mem_of_hasSub {nd : List Char} :
    ∀ {l : List Char}, hasSub nd l = true → ∀ c ∈ nd, c ∈ l := by
  intro l
  induction l with
  | nil =>
    intro h c hc
    simp only [hasSub, List.isEmpty_iff] at h
    subst h
    exact absurd hc (List.not_mem_nil c)
  | cons a t ih =>
    intro h c hc
    simp only [hasSub, Bool.or_eq_true] at h
    rcases h with h1 | h2
    · exact (List.isPrefixOf_iff_prefix.mp h1).subset hc
    · exact List.mem_cons_of_mem a (ih h2 c hc)

/-- `takeWhile` walks through a block that satisfies the predicate. -/
theorem takeWhile_append_of_all {p : Char → Bool} {l1 : List Char} (l2 : List Char)
    (h : ∀ c ∈ l1, p c = true) :
    (l1 ++ l2).takeWhile p = l1 ++ l2.takeWhile p := by
  induction l1 with
  | nil => simp
  | cons a t ih =>
    rw [List.cons_append, List.takeWhile_cons, if_pos (h a (List.mem_cons_self a t)),
      ih (fun c hc => h c (List.mem_cons_of_mem a hc)), List.cons_append]

/-- `dropWhile` skips a block that satisfies the predicate. -/
theorem dropWhile_append_of_all {p : Char → Bool} {l1 : List Char} (l2 : List Char)
    (h : ∀ c ∈ l1, p c = true) :
    (l1 ++ l2).dropWhile p = l2.dropWhile p := by
  induction l1 with
  | nil => simp
  | cons a t ih =>
    rw [List.cons_append, List.dropWhile_cons, if_pos (h a (List.mem_cons_self a t))]
    exact ih (fun c hc => h c (List.mem_cons_of_mem a hc))

/-- `replace(/v\d+$/, '')` removes exactly a trailing `v` followed by
digits. -/
theorem stripVersionSuffix_append (base ds : List Char) (hne : ds ≠ [])
    (hds : ∀ c ∈ ds, c.isDigit = true) :
    stripVersionSuffix (base ++ 'v' :: ds) = base := by
  have hrev : (base ++ 'v' :: ds).reverse = ds.reverse ++ 'v' :: base.reverse := by
    simp
  unfold stripVersionSuffix
  simp only [hrev]
  rw [takeWhile_append_of_all _ (fun c hc => hds c (List.mem_reverse.mp hc)),
    dropWhile_append_of_all _ (fun c hc => hds c (List.mem_reverse.mp hc)),
    List.takeWhile_cons, List.dropWhile_cons]
  have hv : Char.isDigit 'v' = false := by decide
  rw [hv]
  simp only [Bool.false_eq_true, if_false, List.append_nil]
  have hds' : (ds.reverse).isEmpty = false := by
    cases hd : ds.reverse with
    | nil => exact absurd (List.reverse_eq_nil_iff.mp hd) hne
    | cons x xs => rfl
  simp [hds']

/-- Every character of a string passing the standalone arXiv test is a
digit, `'.'`, or `'v'`. -/
theorem standalone_chars {t : List Char} (h : standaloneArxivTest t = true) :
    ∀ c ∈ t, (c.isDigit || c == '.' || c == 'v') = true := by
  intro c hc
  simp only [standaloneArxivTest, Bool.and_eq_true] at h
  obtain ⟨-, h2⟩ := h
  have ht := List.takeWhile_append_dropWhile Char.isDigit t
  rw [← ht] at hc
  rcases List.mem_append.mp hc with hc1 | hc2
  · simp [List.mem_takeWhile_imp hc1]
  · cases hr1 : t.dropWhile Char.isDigit with
    | nil => rw [hr1] at hc2; exact absurd hc2 (List.not_mem_nil c)
    | cons c1 r2 =>
      rw [hr1] at h2 hc2
      simp only [Bool.and_eq_true, beq_iff_eq] at h2
      obtain ⟨hc1eq, -, h3⟩ := h2
      subst hc1eq
      rw [List.mem_cons] at hc2
      rcases hc2 with rfl | hc2
      · simp
      · have hr2 := List.takeWhile_append_dropWhile Char.isDigit r2
        rw [← hr2] at hc2
        rcases List.mem_append.mp hc2 with hd2 | hd3
        · simp [List.mem_takeWhile_imp hd2]
        · cases hr3 : r2.dropWhile Char.isDigit with
          | nil => rw [hr3] at hd3; exact absurd hd3 (List.not_mem_nil c)
          | cons c2 r4 =>
            rw [hr3] at h3 hd3
            simp only [Bool.and_eq_true, beq_iff_eq] at h3
            obtain ⟨⟨hc2eq, -⟩, h4⟩ := h3
            subst hc2eq
            rw [List.mem_cons] at hd3
            rcases hd3 with rfl | hd4
            · simp
            · simp [List.all_eq_true.mp h4 c hd4]

/-- C9: `parseLinks` yields at most one entry per nonempty line (exactly one
per recognized line, unrecognized lines silently dropped), every entry is
`arxiv` or `doi` (never `pdf`), and a line passing the standalone arXiv test
is returned as `arxiv` with any trailing `v`+digits version suffix stripped
from its value. -/
theorem parseLinks_correct (text : List Char) :
    (parseLinks text).length ≤
      ((splitOnNl text).filter (fun l => !(jsTrim l).isEmpty)).length ∧
    (∀ p ∈ parseLinks text,
      p.ptype = PaperRefType.arxiv ∨ p.ptype = PaperRefType.doi) ∧
    (parseLinks text).length =
      ((splitOnNl text).filter (fun l => !(jsTrim l).isEmpty)).countP
        (fun l => (parseLine l).isSome) ∧
    (∀ line : List Char, standaloneArxivTest (jsTrim line) = true →
      parseLine line =
        some ⟨PaperRefType.arxiv, stripVersionSuffix (jsTrim line)⟩) ∧
    (∀ base ds : List Char, ds ≠ [] → (∀ c ∈ ds, c.isDigit = true) →
      stripVersionSuffix (base ++ 'v' :: ds) = base) := by
  refine ⟨List.length_filterMap_le _ _, ?_, length_filterMap_eq_countP _ _, ?_,
    stripVersionSuffix_append⟩
  · intro p hp
    rcases List.mem_filterMap.mp hp with ⟨l, -, hpl⟩
    simp only [parseLine] at hpl
    split at hpl
    · cases hpl; exact Or.inl rfl
    · split at hpl
      · cases hpl; exact Or.inl rfl
      · split at hpl
        · cases hpl; exact Or.inr rfl
        · exact absurd hpl (by simp)
  · intro line h
    have hsub : hasSub ("arxiv.org".data) (jsTrim line) = false := by
      cases hs : hasSub ("arxiv.org".data) (jsTrim line) with
      | false => rfl
      | true =>
        have ha : 'a' ∈ jsTrim line :=
          mem_of_hasSub hs 'a' (by decide)
        have := standalone_chars h 'a' ha
        exact absurd this (by decide)
    simp only [parseLine, hsub, Bool.false_and, Bool.false_eq_true, if_false, h,
      if_true]

/-- Witness for C9 at the concrete standalone identifier `"2301.12345v2"`:
it parses as an arXiv entry with the version suffix stripped. -/
theorem parseLinks_correct_witness :
    parseLine ("2301.12345v2".data) =
      some ⟨PaperRefType.arxiv, stripVersionSuffix (jsTrim ("2301.12345v2".data))⟩ :=
  (parseLinks_correct []).2.2.2.1 ("2301.12345v2".data) (by decide)

/-! ## Path finder, modelled from the spec (§4.4)

The path endpoint is backend code not in `src/`; the client
(`src/lib/api.ts` lines 243–265) only posts `source_paper_id` and
`target_paper_id`. Modelled from the spec: `find_path(graph, source_id,
target_id) -> sequence<node_id> | NoPath`, directed breadth-first search over
the citation-edge relation, with `NodeNotFound` (distinct from `NoPath`) for
endpoints not present in the graph. The search expands the set of nodes
reachable from the source layer by layer (`g.nodes.length` layers saturate
the graph) and reconstructs a path backwards through the layers. -/

/-- The directed citation-edge relation of a graph: some edge goes from `a`
to `b`. -/
def edgeRel (g : ResearchGraph) (a b : String) : Prop :=
  ∃ e ∈ g.edges, e.from_paper = a ∧ e.to_paper = b

/-- A directed citation path exists from `a` to `b`. -/
inductive Reaches (g : ResearchGraph) : String → String → Prop where
  | refl (a : String) : Reaches g a a
  | tail {a b c : String} : Reaches g a b → edgeRel g b c → Reaches g a c

/-- One breadth-first expansion step: the frontier set plus every node an
edge leads to from it. -/
def succStep (g : ResearchGraph) (s : Finset String) : Finset String :=
  s ∪ ((g.edges.filter (fun e => decide (e.from_paper ∈ s))).map
    (fun e => e.to_paper)).toFinset

/-- The nodes reachable from `source` in at most `n` steps. -/
def reachIter (g : ResearchGraph) (source : String) : Nat → Finset String
  | 0 => {source}
  | n + 1 => succStep g (reachIter g source n)

/-- Reconstruct a path from `source` to `x` backwards through the reachable
layers: if `x` already lies in the previous layer, recurse there; otherwise
follow some edge entering `x` from the previous layer. -/
def buildPath (g : ResearchGraph) (source : String) : Nat → String → List String
  | 0, x => [x]
  | n + 1, x =>
    if x ∈ reachIter g source n then buildPath g source n x
    else
      match (g.edges.filter (fun e =>
          decide (e.from_paper ∈ reachIter g source n))).find?
          (fun e => e.to_paper == x) with
      | some e => buildPath g source n e.from_paper ++ [x]
      | none => [x]

/-- Modelled from the spec: the result of `find_path` — an explicit node-id
sequence, the explicit `NoPath` variant, or `NodeNotFound` for an endpoint
missing from the graph. -/
inductive PathResult where
  | path (p : List String)
  | noPath
  | nodeNotFound
  deriving Repr, DecidableEq

/-- Modelled from the spec: §4.4 `find_path`. -/
def find_path (g : ResearchGraph) (source target : String) : PathResult :=
  if source ∈ nodeIds g ∧ target ∈ nodeIds g then
    if target ∈ reachIter g source g.nodes.length then
      PathResult.path (buildPath g source g.nodes.length target)
    else PathResult.noPath
  else PathResult.nodeNotFound

/-- Membership in one expansion step. -/
theorem mem_succStep {g : ResearchGraph} {s : Finset String} {x : String} :
    x ∈ succStep g s ↔
      x ∈ s ∨ ∃ e ∈ g.edges, e.from_paper ∈ s ∧ e.to_paper = x := by
  simp [succStep, List.mem_filter, and_assoc]

/-- Each layer contains the previous one. -/
theorem reachIter_subset_succ (g : ResearchGraph) (source : String) (n : Nat) :
    reachIter g source n ⊆ reachIter g source (n + 1) :=
  Finset.subset_union_left

/-- Layers grow monotonically. -/
theorem reachIter_mono (g : ResearchGraph) (source : String) {m n : Nat}
    (h : m ≤ n) : reachIter g source m ⊆ reachIter g source n := by
  induction h with
  | refl => exact Finset.Subset.refl _
  | step h ih => exact ih.trans (reachIter_subset_succ g source _)

/-- Every node of a layer is reachable from the source. -/
theorem reaches_of_mem_reachIter {g : ResearchGraph} {source x : String} :
    ∀ {n : Nat}, x ∈ reachIter g source n → Reaches g source x := by
  intro n
  induction n generalizing x with
  | zero =>
    intro hx
    rw [reachIter, Finset.mem_singleton] at hx
    subst hx
    exact Reaches.refl _
  | succ n ih =>
    intro hx
    rw [reachIter, mem_succStep] at hx
    rcases hx with hx | ⟨e, he, hfrom, rfl⟩
    · exact ih hx
    · exact Reaches.tail (ih hfrom) ⟨e, he, rfl, rfl⟩

/-- Every node reachable from the source lies in some layer. -/
theorem mem_reachIter_of_reaches {g : ResearchGraph} {source x : String}
    (h : Reaches g source x) : ∃ n, x ∈ reachIter g source n := by
  induction h with
  | refl => exact ⟨0, by rw [reachIter]; exact Finset.mem_singleton_self _⟩
  | tail hab hbc ih =>
    obtain ⟨n, hn⟩ := ih
    obtain ⟨e, he, hfrom, hto⟩ := hbc
    exact ⟨n + 1, by
      rw [reachIter, mem_succStep]
      exact Or.inr ⟨e, he, hfrom ▸ hn, hto⟩⟩

/-- The reconstructed path starts at the source, ends at the requested node,
and follows existing edges throughout. -/
theorem buildPath_spec {g : ResearchGraph} {source : String} :
    ∀ {n : Nat} {x : String}, x ∈ reachIter g source n →
      (buildPath g source n x).head? = some source ∧
      (buildPath g source n x).getLast? = some x ∧
      List.Chain' (edgeRel g) (buildPath g source n x) := by
  intro n
  induction n with
  | zero =>
    intro x hx
    rw [reachIter, Finset.mem_singleton] at hx
    subst hx
    exact ⟨rfl, rfl, List.chain'_singleton _⟩
  | succ n ih =>
    intro x hx
    by_cases hmem : x ∈ reachIter g source n
    · rw [buildPath, if_pos hmem]
      exact ih hmem
    · rw [reachIter, mem_succStep] at hx
      rcases hx with hx | ⟨e, he, hfrom, hto⟩
      · exact absurd hx hmem
      · have hsome : ((g.edges.filter (fun e =>
            decide (e.from_paper ∈ reachIter g source n))).find?
            (fun e => e.to_paper == x)).isSome = true := by
          rw [List.find?_isSome]
          exact ⟨e, List.mem_filter.mpr ⟨he, by simp [hfrom]⟩, by simp [hto]⟩
        obtain ⟨e', heq⟩ := Option.isSome_iff_exists.mp hsome
        have he'mem := List.mem_of_find?_eq_some heq
        have he'edges := (List.mem_filter.mp he'mem).1
        have he'from : e'.from_paper ∈ reachIter g source n := by
          have := (List.mem_filter.mp he'mem).2
          simpa using this
        have he'to : e'.to_paper = x := by
          have := List.find?_some heq
          simpa using this
        obtain ⟨ih1, ih2, ih3⟩ := ih he'from
        rw [buildPath, if_neg hmem, heq]
        refine ⟨?_, List.getLast?_concat _, ?_⟩
        · rw [List.head?_append, ih1]
          rfl
        · rw [List.chain'_append]
          refine ⟨ih3, List.chain'_singleton _, ?_⟩
          intro a ha y hy
          rw [ih2, Option.mem_some_iff] at ha
          cases Option.mem_some_iff.mp hy
          subst ha
          exact ⟨e', he'edges, rfl, he'to⟩

/-- When the graph's edges end inside the node list, every layer stays inside
the node-id set. -/
theorem reachIter_subset_nodeIds {g : ResearchGraph} {source : String}
    (hwf : ∀ e ∈ g.edges, e.to_paper ∈ nodeIds g) (hs : source ∈ nodeIds g) :
    ∀ n, reachIter g source n ⊆ (nodeIds g).toFinset := by
  intro n
  induction n with
  | zero =>
    intro x hx
    rw [reachIter, Finset.mem_singleton] at hx
    subst hx
    exact List.mem_toFinset.mpr hs
  | succ n ih =>
    intro x hx
    rw [reachIter, mem_succStep] at hx
    rcases hx with hx | ⟨e, he, -, rfl⟩
    · exact ih hx
    · exact List.mem_toFinset.mpr (hwf e he)

/-- A layer equal to its successor freezes all later layers. -/
theorem reachIter_stab {g : ResearchGraph} {source : String} {n : Nat}
    (hst : reachIter g source (n + 1) = reachIter g source n) :
    ∀ m, n ≤ m → reachIter g source m = reachIter g source n := by
  intro m hm
  induction m, hm using Nat.le_induction with
  | base => rfl
  | succ m hm ih =>
    calc reachIter g source (m + 1) = succStep g (reachIter g source m) := rfl
      _ = succStep g (reachIter g source n) := by rw [ih]
      _ = reachIter g source n := hst

/-- While no layer has stabilized, the layer cardinality grows strictly. -/
theorem reachIter_card_growth {g : ResearchGraph} {source : String} :
    ∀ n, (∀ m < n, reachIter g source (m + 1) ≠ reachIter g source m) →
      n + 1 ≤ (reachIter g source n).card := by
  intro n
  induction n with
  | zero =>
    intro _
    rw [reachIter, Finset.card_singleton]
  | succ n ih =>
    intro h
    have h1 : n + 1 ≤ (reachIter g source n).card :=
      ih (fun m hm => h m (Nat.lt_succ_of_lt hm))
    have h2 : reachIter g source n ⊂ reachIter g source (n + 1) :=
      Finset.ssubset_iff_subset_ne.mpr
        ⟨reachIter_subset_succ g source n, fun heq =>
          h n (Nat.lt_succ_self n) heq.symm⟩
    exact Nat.succ_le_of_lt (Nat.lt_of_le_of_lt h1 (Finset.card_lt_card h2))

/-- Completeness of the layered search: a node reachable from the source lies
in the `g.nodes.length`-th layer. -/
theorem mem_final_layer_of_reaches {g : ResearchGraph} {source x : String}
    (hwf : ∀ e ∈ g.edges, e.to_paper ∈ nodeIds g) (hs : source ∈ nodeIds g)
    (h : Reaches g source x) :
    x ∈ reachIter g source g.nodes.length := by
  obtain ⟨k, hk⟩ := mem_reachIter_of_reaches h
  by_cases hkN : k ≤ g.nodes.length
  · exact reachIter_mono g source hkN hk
  · push_neg at hkN
    by_cases hstall : ∀ m < g.nodes.length,
        reachIter g source (m + 1) ≠ reachIter g source m
    · exfalso
      have hcard := reachIter_card_growth g.nodes.length hstall
      have hsub := reachIter_subset_nodeIds hwf hs g.nodes.length
      have hle : (reachIter g source g.nodes.length).card ≤ g.nodes.length := by
        calc (reachIter g source g.nodes.length).card
            ≤ (nodeIds g).toFinset.card := Finset.card_le_card hsub
          _ ≤ (nodeIds g).length := List.toFinset_card_le _
          _ = g.nodes.length := List.length_map _ _
      omega
    · push_neg at hstall
      obtain ⟨m, hmN, hstab⟩ := hstall
      have hk' : reachIter g source k = reachIter g source m :=
        reachIter_stab hstab k (Nat.le_of_lt (Nat.lt_trans hmN hkN))
      have : x ∈ reachIter g source m := hk' ▸ hk
      exact reachIter_mono g source (Nat.le_of_lt hmN) this

/-- C4: over any graph whose edge endpoints all occur in its node list, and
for any source and target ids present in the graph, `find_path` returns a
node sequence starting at the source, ending at the target, with every
consecutive pair joined by an existing edge, whenever a directed citation
path exists; and returns the explicit `NoPath` variant (never an ambiguous
empty sequence) when none exists. -/
theorem find_path_correct (g : ResearchGraph) (source target : String)
    (hwf : ∀ e ∈ g.edges, e.from_paper ∈ nodeIds g ∧ e.to_paper ∈ nodeIds g)
    (hs : source ∈ nodeIds g) (ht : target ∈ nodeIds g) :
    (Reaches g source target →
      ∃ p, find_path g source target = PathResult.path p ∧
        p.head? = some source ∧ p.getLast? = some target ∧
        List.Chain' (edgeRel g) p) ∧
    (¬ Reaches g source target → find_path g source target = PathResult.noPath) := by
  have hwf' : ∀ e ∈ g.edges, e.to_paper ∈ nodeIds g := fun e he => (hwf e he).2
  unfold find_path
  rw [if_pos ⟨hs, ht⟩]
  by_cases hmem : target ∈ reachIter g source g.nodes.length
  · rw [if_pos hmem]
    refine ⟨fun _ => ⟨_, rfl, buildPath_spec hmem⟩, fun hnr => ?_⟩
    exact absurd (reaches_of_mem_reachIter hmem) hnr
  · rw [if_neg hmem]
    refine ⟨fun hr => ?_, fun _ => rfl⟩
    exact absurd (mem_final_layer_of_reaches hwf' hs hr) hmem

/-- A concrete three-node chain `A → B → C` exercising C4. -/
def pathWitnessGraph : ResearchGraph :=
  { id := "gp"
    name := "chain"
    nodes :=
      [ { id := "A", title := ['A'], authors := [], publication_date := none
          venue := none, abstract := "", citation_count := none
          attributes := [("paper_source", "input")]
          visual := ⟨"#fff", 10, "ellipse", 1⟩ }
      , { id := "B", title := ['B'], authors := [], publication_date := none
          venue := none, abstract := "", citation_count := none
          attributes := [("paper_source", "intermediate")]
          visual := ⟨"#fff", 10, "ellipse", 1⟩ }
      , { id := "C", title := ['C'], authors := [], publication_date := none
          venue := none, abstract := "", citation_count := none
          attributes := [("paper_source", "intermediate")]
          visual := ⟨"#fff", 10, "ellipse", 1⟩ } ]
    edges :=
      [ { id := "eAB", from_paper := "A", to_paper := "B"
          contribution_type := "reference", strength := 1, context := ""
          delta_description := none, visual := ⟨"#999", 1, "solid", 1⟩ }
      , { id := "eBC", from_paper := "B", to_paper := "C"
          contribution_type := "reference", strength := 1, context := ""
          delta_description := none, visual := ⟨"#999", 1, "solid", 1⟩ } ]
    metadata := []
    extractors_applied := [] }

/-- Witness for C4 on the concrete chain graph, from `A` to `C`. -/
theorem find_path_correct_witness :
    (Reaches pathWitnessGraph "A" "C" →
      ∃ p, find_path pathWitnessGraph "A" "C" = PathResult.path p ∧
        p.head? = some "A" ∧ p.getLast? = some "C" ∧
        List.Chain' (edgeRel pathWitnessGraph) p) ∧
    (¬ Reaches pathWitnessGraph "A" "C" →
      find_path pathWitnessGraph "A" "C" = PathResult.noPath) :=
  find_path_correct pathWitnessGraph "A" "C" (by decide) (by decide) (by decide)

end CitationGraph
